import Mathlib

/-!
Verification development for the `tbl` command-line tool: a shallow
embedding of the file-set resolution and metadata-aggregation engine
(ls.rs, drop.rs, args.rs) together with proofs of its stated properties.

Filesystem paths are modelled structurally (directory components, filename
stem, extension), the filesystem as a partial map from paths to file data,
and each command as a pure function from its arguments, the enumerated
file set, the filesystem, and the interactive-prompt outcome to the list
of emitted display lines, the resulting filesystem, and a success/error
result. Library functions of the tool whose sources are not part of this
snapshot (path enumeration, parquet footer reading, output-path
derivation) are modelled from the design specification and marked as such
in their doc comments.
-/

namespace Tbl

/-- A filesystem path, split into directory components, filename stem and
extension, mirroring the stem/extension view of Rust PathBuf used by the
output-path policies. -/
structure Path where
  dir : List String
  stem : String
  ext : String
deriving DecidableEq

/-- Rendering of a path for error messages (what to_string_lossy shows). -/
def Path.render (p : Path) : String :=
  String.intercalate ("/") (p.dir ++ [p.stem ++ (".") ++ p.ext])

/-- Parquet footer metadata of one file: its row count and its schema,
the latter given as the list of column names in display order. -/
structure FileMeta where
  rows : Nat
  schema : List String
deriving DecidableEq

/-- On-disk state of one file: byte size and parquet footer metadata
(`none` when the footer is unreadable or not the expected format). -/
structure FileData where
  byteSize : Nat
  meta : Option FileMeta
deriving DecidableEq

/-- The filesystem: which paths currently hold which files. -/
abbrev World := Path → Option FileData

/-- Errors, mirroring TablCliError's variants used in the sources
(`Error`, `Arg`) together with the specification's error taxonomy for the
library layer (UnreadableMetadata, PathCollision). -/
inductive TblError where
  | Error (msg : String)
  | Arg (msg : String)
  | PathCollision (a b : Path)
  | UnreadableMetadata (p : Path)
deriving DecidableEq

/-- Modelled from the spec: reading a file's size on disk
(std fs metadata, length), failing when the path does not exist. -/
def fs_metadata_len (w : World) (p : Path) : Except TblError Nat :=
  match w p with
  | some fd => .ok fd.byteSize
  | none => .error (.UnreadableMetadata p)

/-- Modelled from the spec: reading one parquet file's row count from its
footer; fails with UnreadableMetadata naming the file when the footer is
absent or unreadable. -/
def read_row_count (w : World) (p : Path) : Except TblError Nat :=
  match w p with
  | some fd =>
    match fd.meta with
    | some m => .ok m.rows
    | none => .error (.UnreadableMetadata p)
  | none => .error (.UnreadableMetadata p)

/-- Modelled from the spec: reading one parquet file's schema from its
footer; fails with UnreadableMetadata naming the file. -/
def read_schema (w : World) (p : Path) : Except TblError (List String) :=
  match w p with
  | some fd =>
    match fd.meta with
    | some m => .ok m.schema
    | none => .error (.UnreadableMetadata p)
  | none => .error (.UnreadableMetadata p)

/-- Modelled from the spec: tbl parquet get_parquet_row_counts (source not
in this snapshot) — reads every file's row count, index-aligned with the
input paths; hard-fail policy: one unreadable file fails the whole batch. -/
def get_parquet_row_counts (paths : List Path) (w : World) : Except TblError (List Nat) :=
  match paths with
  | [] => .ok []
  | p :: ps =>
    match read_row_count w p with
    | .error e => .error e
    | .ok n =>
      match get_parquet_row_counts ps w with
      | .error e => .error e
      | .ok ns => .ok (n :: ns)

/-- Modelled from the spec: tabl parquet get_parquet_schemas (source not
in this snapshot) — reads every file's schema, index-aligned with the
input paths; hard-fail policy: one unreadable file fails the whole batch. -/
def get_parquet_schemas (paths : List Path) (w : World) : Except TblError (List (List String)) :=
  match paths with
  | [] => .ok []
  | p :: ps =>
    match read_schema w p with
    | .error e => .error e
    | .ok s =>
      match get_parquet_schemas ps w with
      | .error e => .error e
      | .ok ss => .ok (s :: ss)

/-- The size-totalling loop of ls_command (ls.rs lines 20-25): sums the
on-disk sizes of all paths, propagating the first read error. -/
def total_file_size (paths : List Path) (w : World) : Except TblError Nat :=
  match paths with
  | [] => .ok 0
  | p :: ps =>
    match fs_metadata_len w p with
    | .error e => .error e
    | .ok s =>
      match total_file_size ps w with
      | .error e => .error e
      | .ok t => .ok (s + t)

/-- How many file names ls prints (ls.rs lines 27-41): the user-given n,
otherwise terminal height minus 4 (at least 1), otherwise 100. -/
def decide_n_print (n : Option Nat) (term_height : Option Nat) : Nat :=
  match n with
  | some k => k
  | none =>
    match term_height with
    | some h => if 5 ≤ h then h - 4 else 1
    | none => 100

/-- One line of ls output: a listed file, the "... k files not shown"
truncation notice, or the final totals line
("R rows stored in B across F tabular files"). -/
inductive LLine where
  | file (p : Path)
  | notShown (k : Nat)
  | summary (rows bytes files : Nat)
deriving DecidableEq

/-- Shallow embedding of ls_command (ls.rs): `paths` is the enumerated
file set (after the optional common-prefix stripping, which only changes
displayed text). In source order: total the file sizes, print up to
n_print file names plus a truncation notice, query all row counts, then
print the totals line. Returns the emitted lines and the result; an error
returns immediately with whatever was printed so far. -/
def ls_command (paths : List Path) (w : World) (n : Option Nat) (term_height : Option Nat) :
    List LLine × Except TblError Unit :=
  match total_file_size paths w with
  | .error e => ([], .error e)
  | .ok total_size =>
    let n_print := decide_n_print n term_height
    let fileLines := (paths.take n_print).map LLine.file
    let fileLines :=
      if n_print < paths.length then fileLines ++ [.notShown (paths.length - n_print)]
      else fileLines
    match get_parquet_row_counts paths w with
    | .error e => (fileLines, .error e)
    | .ok counts => (fileLines ++ [.summary counts.sum total_size paths.length], .ok ())

/-- Output-path policy mirroring the builder fields of the library's
OutputPathSpec (inputs, output_dir, tree, and the filename affix pair,
called file_pre and file_post here). Source not in this snapshot. -/
structure OutputPathSpec where
  inputs : Option (List Path)
  output_dir : Option (List String)
  tree : Bool
  file_pre : Option String
  file_post : Option String
deriving DecidableEq

/-- Longest common initial run of two directory component lists. -/
def common_dir2 : List String → List String → List String
  | a :: as, b :: bs => if a = b then a :: common_dir2 as bs else []
  | _, _ => []

/-- Modelled from the spec: the common ancestor directory of all inputs,
used by directory-redirect to compute each input's relative subpath. -/
def common_ancestor : List Path → List String
  | [] => []
  | p :: ps => ps.foldl (fun acc q => common_dir2 acc q.dir) p.dir

/-- Modelled from the spec (§4.2 Output Path Deriver, source not in this
snapshot): directory-redirect rewrites the directory to the output root
followed by the input's path relative to the common ancestor; the
filename-affix policy sets the output stem to pre ++ stem ++ post with
the extension unchanged, applied after the directory rewrite. -/
def derive_output (output_dir : Option (List String)) (anc : List String)
    (pre post : Option String) (p : Path) : Path :=
  { dir :=
      match output_dir with
      | none => p.dir
      | some root => root ++ p.dir.drop anc.length
    stem := pre.getD ("") ++ p.stem ++ post.getD ("")
    ext := p.ext }

/-- First pair of inputs whose derived outputs coincide, scanning the
(input, output) pairs in order: reports (earlier input, later input). -/
def findCollision : List (Path × Path) → Option (Path × Path)
  | [] => none
  | pr :: rest =>
    match rest.find? (fun q => decide (q.2 = pr.2)) with
    | some q => some (pr.1, q.1)
    | none => findCollision rest

/-- Modelled from the spec: the library's get_output_paths (source not in
this snapshot) — takes the FileSet enumerated from the spec's inputs
(enumeration is library code, so the enumerated list is passed
explicitly), derives one output path per input under the
directory-redirect and filename-affix policies, and fails with
PathCollision naming the offending inputs when two outputs coincide. -/
def get_output_paths (spec : OutputPathSpec) (enum : List Path) :
    Except TblError (List Path × List Path) :=
  match findCollision (enum.zip (enum.map (derive_output spec.output_dir
      (common_ancestor enum) spec.file_pre spec.file_post))) with
  | some pr => .error (.PathCollision pr.1 pr.2)
  | none =>
    .ok (enum, enum.map (derive_output spec.output_dir
      (common_ancestor enum) spec.file_pre spec.file_post))

/-- Modelled from the spec (§4.4 Existence Prechecker): counts how many of
the given paths already exist on disk; a pure read of the filesystem. -/
def count_existing_files (outputs : List Path) (w : World) : Nat :=
  outputs.countP (fun p => (w p).isSome)

/-- Arguments of the drop subcommand (args.rs DropArgs; the output affix
pair is called output_pre and output_post here). -/
structure DropArgs where
  columns : List String
  inputs : Option (List Path)
  tree : Bool
  confirm : Bool
  output_pre : Option String
  output_post : Option String
  output_dir : Option (List String)
  show_output_paths : Bool
deriving DecidableEq

/-- The OutputPathSpec that drop_command builds from its arguments
(drop.rs lines 10-15). -/
def spec_of (args : DropArgs) : OutputPathSpec :=
  { inputs := args.inputs
    output_dir := args.output_dir
    tree := args.tree
    file_pre := args.output_pre
    file_post := args.output_post }

/-- The missing-column error message of drop_command (drop.rs lines
20-26): "File does not contain column COLUMN: PATH". -/
def missing_column_msg (column : String) (input : Path) : String :=
  "File does not contain column " ++ column ++ ": " ++ input.render

/-- Inner loop of the required-column check (drop.rs lines 18-28): scan
the requested columns in argument order against one file's schema and
error on the first one the schema lacks. -/
def check_columns_file (input : Path) (schema : List String) :
    List String → Except TblError Unit
  | [] => .ok ()
  | c :: cs =>
    if schema.contains c then check_columns_file input schema cs
    else .error (.Error (missing_column_msg c input))

/-- Outer loop of the required-column check (drop.rs lines 17-28): scan
the (input, schema) pairs in input order, stopping at the first file with
a missing column. -/
def check_columns : List (Path × List String) → List String → Except TblError Unit
  | [], _ => .ok ()
  | pr :: rest, columns =>
    match check_columns_file pr.1 pr.2 columns with
    | .error e => .error e
    | .ok _ => check_columns rest columns

/-- One line of drop output: a listed file, the "..." truncation mark,
the "dropping columns ... from N files" summary, the overwrite warning,
the interactive confirmation prompt, or the "not implemented yet" edit
stub. -/
inductive DLine where
  | file (p : Path)
  | ellipsis
  | summary (columns : List String) (nFiles : Nat)
  | overwriteWarning (n : Nat)
  | promptShown
  | editStub
deriving DecidableEq

/-- The file-listing block of print_drop_summary (drop.rs lines 55-76):
up to 10 input files, plus an ellipsis when more exist. -/
def drop_file_lines (inputs : List Path) : List DLine :=
  if 10 < inputs.length then (inputs.take 10).map DLine.file ++ [DLine.ellipsis]
  else (inputs.take 10).map DLine.file

/-- Shallow embedding of print_drop_summary (drop.rs lines 53-128): print
the file-listing block, then fail with the Arg error when no columns were
given, then print the summary line, and — only when an output directory
is set — count the derived outputs that already exist and warn when that
count is positive. Returns the emitted lines, the resulting filesystem
and the result. -/
def print_drop_summary (args : DropArgs) (inputs outputs : List Path) (w : World) :
    List DLine × World × Except TblError Unit :=
  match args.columns.head? with
  | none => (drop_file_lines inputs, w, .error (.Arg ("must specify column(s) to drop")))
  | some _ =>
    let warnLines :=
      match args.output_dir with
      | some _ =>
        if 0 < count_existing_files outputs w then
          [DLine.overwriteWarning (count_existing_files outputs w)]
        else []
      | none => []
    (drop_file_lines inputs ++ [.summary args.columns inputs.length] ++ warnLines, w, .ok ())

/-- Shallow embedding of drop_command (drop.rs lines 6-51): derive the
output paths, read all input schemas, check that every file has every
requested column, print the summary, then — unless the confirm flag was
given — show the interactive prompt and return Ok immediately unless it
answers yes, and finally run the edit step, a stub that only prints
"not implemented yet". `enum` is the file set enumerated from the
arguments (enumeration is library code, passed explicitly); `pa` is the
outcome of the interactive prompt. -/
def drop_command (args : DropArgs) (enum : List Path) (w : World)
    (pa : Except Unit Bool) : List DLine × World × Except TblError Unit :=
  match get_output_paths (spec_of args) enum with
  | .error e => ([], w, .error e)
  | .ok (inputs, outputs) =>
    match get_parquet_schemas inputs w with
    | .error e => ([], w, .error e)
    | .ok schemas =>
      match check_columns (inputs.zip schemas) args.columns with
      | .error e => ([], w, .error e)
      | .ok _ =>
        match print_drop_summary args inputs outputs w with
        | (lines, w2, .error e) => (lines, w2, .error e)
        | (lines, w2, .ok _) =>
          if args.confirm then (lines ++ [.editStub], w2, .ok ())
          else
            match pa with
            | .ok true => (lines ++ [.promptShown, .editStub], w2, .ok ())
            | _ => (lines ++ [.promptShown], w2, .ok ())

/-- Fixture file a. -/
def pA : Path := { dir := ["data"], stem := "a", ext := "parquet" }

/-- Fixture file b. -/
def pB : Path := { dir := ["data"], stem := "b", ext := "parquet" }

/-- Fixture filesystem holding pA (10 bytes, 3 rows, columns x y) and
pB (20 bytes, 4 rows, column x). -/
def wAB : World := fun p =>
  if p = pA then some { byteSize := 10, meta := some { rows := 3, schema := ["x", "y"] } }
  else if p = pB then some { byteSize := 20, meta := some { rows := 4, schema := ["x"] } }
  else none

/-- Fixture filesystem where pA exists but its parquet footer is
unreadable, while pB is intact. -/
def wBad : World := fun p =>
  if p = pA then some { byteSize := 10, meta := none }
  else if p = pB then some { byteSize := 20, meta := some { rows := 4, schema := ["x"] } }
  else none

/-- Fixture drop arguments: drop column x in place with the confirm flag
set. -/
def argsIP : DropArgs :=
  { columns := ["x"], inputs := some [pA, pB], tree := false, confirm := true,
    output_pre := none, output_post := none, output_dir := none,
    show_output_paths := false }

/-- Fixture drop arguments: drop column x writing to output directory
out. -/
def argsOD : DropArgs :=
  { columns := ["x"], inputs := some [pA, pB], tree := false, confirm := false,
    output_pre := none, output_post := none, output_dir := some ["out"],
    show_output_paths := false }

/-- Fixture drop arguments: drop column x in place without the confirm
flag, so the interactive prompt decides. -/
def argsX : DropArgs :=
  { columns := ["x"], inputs := some [pA, pB], tree := false, confirm := false,
    output_pre := none, output_post := none, output_dir := none,
    show_output_paths := false }

/-- Fixture drop arguments: an empty column list. -/
def argsE : DropArgs :=
  { columns := [], inputs := some [pA, pB], tree := false, confirm := false,
    output_pre := none, output_post := none, output_dir := none,
    show_output_paths := false }

/-- Fixture file for the affix example: stem file, extension ext. -/
def pFile : Path := { dir := ["d"], stem := "file", ext := "ext" }

/-- Default value of the schema subcommand's sort argument
(args.rs lines 229-231, clap default_value bytes). -/
def schema_sort_default : String := "bytes"

/-- The effective schema sort key string: the user's value when given,
otherwise the clap default (args.rs lines 229-231). -/
def parse_schema_sort : Option String → String
  | some s => s
  | none => schema_sort_default

/-- A group of files sharing one schema, with its aggregate file, row and
byte counts. -/
structure SchemaGroup where
  n_files : Nat
  n_rows : Nat
  n_bytes : Nat
deriving DecidableEq

/-- Modelled from the spec: the sort key selected by the schema
subcommand's sort argument — total rows, file count, or (the default)
total bytes; schema_command's own source is not in this snapshot. -/
def schema_group_key (sort : String) (g : SchemaGroup) : Nat :=
  if sort = "rows" then g.n_rows
  else if sort = "files" then g.n_files
  else g.n_bytes

/-- Modelled from the spec: sort the schema groups in descending order of
the selected key. -/
def sort_schema_groups (sort : String) (gs : List SchemaGroup) : List SchemaGroup :=
  List.insertionSort (fun a b => schema_group_key sort b ≤ schema_group_key sort a) gs

theorem get_parquet_row_counts_length {paths : List Path} {w : World} {rc : List Nat}
    (h : get_parquet_row_counts paths w = .ok rc) : rc.length = paths.length := by
  induction paths generalizing rc with
  | nil =>
    simp only [get_parquet_row_counts] at h
    cases h
    rfl
  | cons p ps ih =>
    simp only [get_parquet_row_counts] at h
    cases hr : read_row_count w p with
    | error e => rw [hr] at h; cases h
    | ok n =>
      rw [hr] at h
      cases hs : get_parquet_row_counts ps w with
      | error e => rw [hs] at h; cases h
      | ok ns =>
        rw [hs] at h
        cases h
        simp [ih hs]

theorem get_parquet_row_counts_align {paths : List Path} {w : World} {rc : List Nat}
    (h : get_parquet_row_counts paths w = .ok rc) :
    ∀ i (h1 : i < paths.length) (h2 : i < rc.length),
      read_row_count w (paths.get ⟨i, h1⟩) = .ok (rc.get ⟨i, h2⟩) := by
  induction paths generalizing rc with
  | nil =>
    intro i h1
    exact absurd h1 (by simp)
  | cons p ps ih =>
    simp only [get_parquet_row_counts] at h
    cases hr : read_row_count w p with
    | error e => rw [hr] at h; cases h
    | ok n =>
      rw [hr] at h
      cases hs : get_parquet_row_counts ps w with
      | error e => rw [hs] at h; cases h
      | ok ns =>
        rw [hs] at h
        cases h
        intro i h1 h2
        cases i with
        | zero => simpa using hr
        | succ j =>
          exact ih hs j (Nat.lt_of_succ_lt_succ h1) (Nat.lt_of_succ_lt_succ h2)

/-- C1: For every non-empty file set, when the size pass and the row-count
query both succeed, ls succeeds and its final totals line reports exactly
the sum of the per-file row counts over the whole enumerated path list —
whatever the print truncation n and terminal height — and the queried
counts are index-aligned with the enumerated paths. -/
theorem ls_summary_total_rows (paths : List Path) (w : World) (n th : Option Nat)
    (rc : List Nat) (t : Nat)
    (hne : paths ≠ [])
    (ht : total_file_size paths w = .ok t)
    (hrc : get_parquet_row_counts paths w = .ok rc) :
    (ls_command paths w n th).2 = .ok () ∧
    (ls_command paths w n th).1.getLast? = some (.summary rc.sum t paths.length) ∧
    rc.length = paths.length ∧
    ∀ i (h1 : i < paths.length) (h2 : i < rc.length),
      read_row_count w (paths.get ⟨i, h1⟩) = .ok (rc.get ⟨i, h2⟩) := by
  refine ⟨?_, ?_, get_parquet_row_counts_length hrc, get_parquet_row_counts_align hrc⟩
  · simp only [ls_command, ht, hrc]
  · simp only [ls_command, ht, hrc, List.getLast?_concat]

/-- Witness for C1: two files of 3 and 4 rows with the listing truncated
to one entry still report 7 total rows across 2 files. -/
theorem ls_summary_total_rows_witness :
    (ls_command [pA, pB] wAB (some 1) none).2 = .ok () ∧
    (ls_command [pA, pB] wAB (some 1) none).1.getLast? = some (.summary 7 30 2) := by
  have h := ls_summary_total_rows [pA, pB] wAB (some 1) none [3, 4] 30
    (by simp) (by rfl) (by rfl)
  exact ⟨h.1, h.2.1⟩

theorem zip_map_self (f : Path → Path) :
    ∀ l : List Path, l.zip (l.map f) = l.map (fun x => (x, f x))
  | [] => rfl
  | x :: xs => by simp [zip_map_self f xs]

theorem pairwise_snd_of_map {f : Path → Path} {l : List Path}
    (h : (l.map (fun x => (x, f x))).Pairwise (fun x y => x.2 ≠ y.2)) :
    (l.map f).Pairwise (fun x y => x ≠ y) := by
  induction l with
  | nil => simp
  | cons x xs ih =>
    simp only [List.map_cons, List.pairwise_cons] at h ⊢
    refine ⟨?_, ih h.2⟩
    intro b hb
    obtain ⟨y, hy, rfl⟩ := List.mem_map.mp hb
    exact h.1 (y, f y) (List.mem_map_of_mem _ hy)

theorem findCollision_none_pairwise {l : List (Path × Path)}
    (h : findCollision l = none) : l.Pairwise (fun x y => x.2 ≠ y.2) := by
  induction l with
  | nil => simp
  | cons pr rest ih =>
    simp only [findCollision] at h
    cases hf : rest.find? (fun q => decide (q.2 = pr.2)) with
    | some q => rw [hf] at h; cases h
    | none =>
      rw [hf] at h
      refine List.Pairwise.cons ?_ (ih h)
      intro b hb
      have hnb := List.find?_eq_none.mp hf b hb
      simp only [decide_eq_true_eq] at hnb
      exact fun hEq => hnb hEq.symm

theorem findCollision_some_spec {l : List (Path × Path)} {a b : Path}
    (h : findCollision l = some (a, b)) :
    (∃ o, (a, o) ∈ l ∧ (b, o) ∈ l) ∧
    ((l.map Prod.fst).Nodup → a ≠ b) := by
  induction l with
  | nil => simp [findCollision] at h
  | cons pr rest ih =>
    simp only [findCollision] at h
    cases hf : rest.find? (fun q => decide (q.2 = pr.2)) with
    | some q =>
      rw [hf] at h
      have hq : q ∈ rest := List.mem_of_find?_eq_some hf
      have hq2 : q.2 = pr.2 := by
        have := List.find?_some hf
        simpa using this
      cases h
      refine ⟨⟨pr.2, ?_, ?_⟩, ?_⟩
      · exact List.mem_cons_self _ _
      · rw [← hq2]
        exact List.mem_cons_of_mem _ hq
      · intro hnd
        simp only [List.map_cons, List.nodup_cons] at hnd
        intro hEq
        exact hnd.1 (hEq ▸ List.mem_map_of_mem Prod.fst hq)
    | none =>
      rw [hf] at h
      obtain ⟨⟨o, hao, hbo⟩, hne⟩ := ih h
      refine ⟨⟨o, List.mem_cons_of_mem _ hao, List.mem_cons_of_mem _ hbo⟩, ?_⟩
      intro hnd
      simp only [List.map_cons, List.nodup_cons] at hnd
      exact hne hnd.2

/-- C2: Output-path derivation never lets two inputs share an output:
when derivation succeeds, the outputs are pairwise distinct; when the
derived outputs are not pairwise distinct, derivation fails with a
PathCollision error naming two offending inputs (distinct inputs whenever
the enumerated file set is duplicate-free) whose derived outputs are
equal; and drop_command propagates any derivation error without doing
anything else. -/
theorem get_output_paths_no_collision (spec : OutputPathSpec) (enum : List Path) :
    (∀ ins outs, get_output_paths spec enum = .ok (ins, outs) →
      ins = enum ∧
      outs = enum.map (derive_output spec.output_dir (common_ancestor enum)
        spec.file_pre spec.file_post) ∧
      outs.Pairwise (fun x y => x ≠ y)) ∧
    (¬ (enum.map (derive_output spec.output_dir (common_ancestor enum)
          spec.file_pre spec.file_post)).Pairwise (fun x y => x ≠ y) →
      ∃ a b, get_output_paths spec enum = .error (.PathCollision a b) ∧
        a ∈ enum ∧ b ∈ enum ∧
        derive_output spec.output_dir (common_ancestor enum) spec.file_pre spec.file_post a =
          derive_output spec.output_dir (common_ancestor enum) spec.file_pre spec.file_post b ∧
        (enum.Nodup → a ≠ b)) ∧
    (∀ (args : DropArgs) (w : World) (pa : Except Unit Bool) (e : TblError),
      get_output_paths (spec_of args) enum = .error e →
      drop_command args enum w pa = ([], w, .error e)) := by
  refine ⟨?_, ?_, ?_⟩
  · intro ins outs h
    simp only [get_output_paths] at h
    cases hc : findCollision (enum.zip (enum.map (derive_output spec.output_dir
        (common_ancestor enum) spec.file_pre spec.file_post))) with
    | some pr => rw [hc] at h; cases h
    | none =>
      rw [hc] at h
      cases h
      refine ⟨rfl, rfl, ?_⟩
      have hp := findCollision_none_pairwise hc
      rw [zip_map_self] at hp
      exact pairwise_snd_of_map hp
  · intro hnp
    cases hc : findCollision (enum.zip (enum.map (derive_output spec.output_dir
        (common_ancestor enum) spec.file_pre spec.file_post))) with
    | none =>
      exfalso
      apply hnp
      have hp := findCollision_none_pairwise hc
      rw [zip_map_self] at hp
      exact pairwise_snd_of_map hp
    | some pr =>
      obtain ⟨a, b⟩ := pr
      obtain ⟨⟨o, hao, hbo⟩, hne⟩ := findCollision_some_spec hc
      rw [zip_map_self] at hao hbo
      obtain ⟨xa, hxa, hxaEq⟩ := List.mem_map.mp hao
      obtain ⟨xb, hxb, hxbEq⟩ := List.mem_map.mp hbo
      have hxa1 : xa = a := congrArg Prod.fst hxaEq
      have hoa : derive_output spec.output_dir (common_ancestor enum)
          spec.file_pre spec.file_post xa = o := congrArg Prod.snd hxaEq
      have hxb1 : xb = b := congrArg Prod.fst hxbEq
      have hob : derive_output spec.output_dir (common_ancestor enum)
          spec.file_pre spec.file_post xb = o := congrArg Prod.snd hxbEq
      subst hxa1
      subst hxb1
      refine ⟨xa, xb, ?_, hxa, hxb, by rw [hoa, hob], ?_⟩
      · simp only [get_output_paths, hc]
      · intro hnd
        apply hne
        have hfst : (enum.zip (enum.map (derive_output spec.output_dir
            (common_ancestor enum) spec.file_pre spec.file_post))).map Prod.fst = enum := by
          rw [zip_map_self, List.map_map]
          exact List.map_id enum
        rw [hfst]
        exact hnd
  · intro args w pa e h
    simp only [drop_command, h]

/-- Fixture for the collision witness: same file listed twice. -/
def specD : OutputPathSpec :=
  { inputs := none, output_dir := none, tree := false, file_pre := none, file_post := none }

/-- Witness for C2: a file set whose derived outputs are not pairwise
distinct makes get_output_paths fail with PathCollision. -/
theorem get_output_paths_no_collision_witness :
    ∃ a b, get_output_paths specD [pA, pA] = .error (.PathCollision a b) ∧
      a ∈ [pA, pA] ∧ b ∈ [pA, pA] := by
  obtain ⟨a, b, h1, h2, h3, _⟩ :=
    (get_output_paths_no_collision specD [pA, pA]).2.1 (by decide)
  exact ⟨a, b, h1, h2, h3⟩

theorem check_columns_file_ok {input : Path} {schema : List String} {columns : List String}
    (h : ∀ c ∈ columns, schema.contains c = true) :
    check_columns_file input schema columns = .ok () := by
  induction columns with
  | nil => rfl
  | cons c cs ih =>
    simp only [check_columns_file, h c (List.mem_cons_self c cs)]
    exact ih (fun x hx => h x (List.mem_cons_of_mem c hx))

theorem check_columns_ok (pairs : List (Path × List String)) (columns : List String)
    (h : ∀ pr ∈ pairs, ∀ c ∈ columns, (pr.2).contains c = true) :
    check_columns pairs columns = .ok () := by
  induction pairs with
  | nil => rfl
  | cons pr rest ih =>
    simp only [check_columns,
      check_columns_file_ok (h pr (List.mem_cons_self pr rest))]
    exact ih (fun x hx => h x (List.mem_cons_of_mem pr hx))

theorem check_columns_file_err {input : Path} {schema : List String}
    {cpre cs : List String} {c : String}
    (hpre : ∀ x ∈ cpre, schema.contains x = true)
    (hc : schema.contains c = false) :
    check_columns_file input schema (cpre ++ c :: cs) =
      .error (.Error (missing_column_msg c input)) := by
  induction cpre with
  | nil =>
    simp only [List.nil_append, check_columns_file]
    rw [hc]
    rfl
  | cons x xs ih =>
    simp only [List.cons_append, check_columns_file, hpre x (List.mem_cons_self x xs)]
    exact ih (fun y hy => hpre y (List.mem_cons_of_mem x hy))

theorem check_columns_err {pre rest : List (Path × List String)}
    {f : Path} {s : List String} {columns : List String} {e : TblError}
    (hpre : ∀ pr ∈ pre, ∀ col ∈ columns, (pr.2).contains col = true)
    (hfile : check_columns_file f s columns = .error e) :
    check_columns (pre ++ (f, s) :: rest) columns = .error e := by
  induction pre with
  | nil => simp only [List.nil_append, check_columns, hfile]
  | cons pr ps ih =>
    simp only [List.cons_append, check_columns,
      check_columns_file_ok (hpre pr (List.mem_cons_self pr ps))]
    exact ih (fun x hx => hpre x (List.mem_cons_of_mem pr hx))

/-- C3: If, scanning the input files in order, every file before position
i has all requested columns, and file i's schema lacks some requested
column — the first such column in argument order being c — then
drop_command fails with the error naming exactly that column and that
file, before printing any summary, prompting, or editing (no output lines
at all); and when every file contains every requested column the check
raises no error. -/
theorem drop_missing_column_named :
    (∀ (args : DropArgs) (enum : List Path) (w : World) (pa : Except Unit Bool)
      (inputs outputs : List Path) (schemas : List (List String))
      (pre rest : List (Path × List String)) (f : Path) (s : List String)
      (cpre cs : List String) (c : String),
      get_output_paths (spec_of args) enum = .ok (inputs, outputs) →
      get_parquet_schemas inputs w = .ok schemas →
      inputs.zip schemas = pre ++ (f, s) :: rest →
      (∀ pr ∈ pre, ∀ col ∈ args.columns, (pr.2).contains col = true) →
      args.columns = cpre ++ c :: cs →
      (∀ col ∈ cpre, s.contains col = true) →
      s.contains c = false →
      drop_command args enum w pa = ([], w, .error (.Error (missing_column_msg c f)))) ∧
    (∀ (pairs : List (Path × List String)) (columns : List String),
      (∀ pr ∈ pairs, ∀ col ∈ columns, (pr.2).contains col = true) →
      check_columns pairs columns = .ok ()) := by
  constructor
  · intro args enum w pa inputs outputs schemas pre rest f s cpre cs c
      h1 h2 h3 h4 h5 h6 h7
    have hfile : check_columns_file f s args.columns =
        .error (.Error (missing_column_msg c f)) := by
      rw [h5]
      exact check_columns_file_err h6 h7
    have hcheck : check_columns (inputs.zip schemas) args.columns =
        .error (.Error (missing_column_msg c f)) := by
      rw [h3]
      exact check_columns_err h4 hfile
    simp only [drop_command, h1, h2, hcheck]
  · exact check_columns_ok

/-- Arguments fixture for the missing-column witness: drop columns x and
y from pA (has both) and pB (has only x). -/
def argsXY : DropArgs :=
  { columns := ["x", "y"], inputs := some [pA, pB], tree := false, confirm := false,
    output_pre := none, output_post := none, output_dir := none,
    show_output_paths := false }

/-- Witness for C3: with files pA (columns x, y) and pB (column x),
dropping columns x and y fails naming column y and file pB, with no
output printed. -/
theorem drop_missing_column_named_witness :
    drop_command argsXY [pA, pB] wAB (.ok true) =
      ([], wAB, .error (.Error (missing_column_msg ("y") pB))) := by
  refine drop_missing_column_named.1 argsXY [pA, pB] wAB (.ok true)
    [pA, pB] [pA, pB] [["x", "y"], ["x"]]
    [(pA, ["x", "y"])] [] pB ["x"] ["x"] [] ("y") ?_ ?_ ?_ ?_ ?_ ?_ ?_
  · rfl
  · rfl
  · rfl
  · intro pr hpr col hcol
    fin_cases hpr <;> fin_cases hcol <;> rfl
  · rfl
  · intro col hcol
    fin_cases hcol <;> rfl
  · rfl

theorem print_drop_summary_world (args : DropArgs) (inputs outputs : List Path) (w : World) :
    (print_drop_summary args inputs outputs w).2.1 = w := by
  cases h : args.columns.head? with
  | none => simp [print_drop_summary, h]
  | some c => simp [print_drop_summary, h]

theorem mem_drop_file_lines {x : DLine} {inputs : List Path}
    (h : x ∈ drop_file_lines inputs) :
    (∃ p, x = DLine.file p) ∨ x = DLine.ellipsis := by
  simp only [drop_file_lines] at h
  split at h
  · rcases List.mem_append.mp h with h1 | h1
    · obtain ⟨p, _, rfl⟩ := List.mem_map.mp h1
      exact Or.inl ⟨p, rfl⟩
    · simp only [List.mem_singleton] at h1
      exact Or.inr h1
  · obtain ⟨p, _, rfl⟩ := List.mem_map.mp h
    exact Or.inl ⟨p, rfl⟩

theorem mem_print_drop_summary_lines {x : DLine} {args : DropArgs}
    {inputs outputs : List Path} {w : World}
    (h : x ∈ (print_drop_summary args inputs outputs w).1) :
    (∃ p, x = DLine.file p) ∨ x = DLine.ellipsis ∨
    (∃ cols k, x = DLine.summary cols k) ∨ (∃ n, x = DLine.overwriteWarning n) := by
  cases hc : args.columns.head? with
  | none =>
    simp only [print_drop_summary, hc] at h
    rcases mem_drop_file_lines h with h1 | h1
    · exact Or.inl h1
    · exact Or.inr (Or.inl h1)
  | some c =>
    simp only [print_drop_summary, hc] at h
    rcases List.mem_append.mp h with h1 | h1
    · rcases List.mem_append.mp h1 with h2 | h2
      · rcases mem_drop_file_lines h2 with h3 | h3
        · exact Or.inl h3
        · exact Or.inr (Or.inl h3)
      · simp only [List.mem_singleton] at h2
        exact Or.inr (Or.inr (Or.inl ⟨args.columns, inputs.length, h2⟩))
    · cases hod : args.output_dir with
      | none => rw [hod] at h1; cases h1
      | some d =>
        rw [hod] at h1
        by_cases hcount : 0 < count_existing_files outputs w
        · rw [if_pos hcount] at h1
          simp only [List.mem_singleton] at h1
          exact Or.inr (Or.inr (Or.inr ⟨count_existing_files outputs w, h1⟩))
        · rw [if_neg hcount] at h1
          cases h1

/-- C4 as amended: the existence precheck and its overwrite warning are
tied to the directory-redirect policy only — the summary step leaves the
filesystem untouched, never emits an overwrite warning when no output
directory is set (in-place policy), and when an output directory is set
(and columns were given) it emits the warning carrying the count of
already-existing derived outputs exactly when that count is positive. -/
theorem print_drop_summary_precheck (args : DropArgs) (inputs outputs : List Path)
    (w : World) :
    (print_drop_summary args inputs outputs w).2.1 = w ∧
    (args.output_dir = none →
      ∀ n, DLine.overwriteWarning n ∉ (print_drop_summary args inputs outputs w).1) ∧
    (args.output_dir.isSome = true → args.columns ≠ [] →
      (0 < count_existing_files outputs w ↔
        DLine.overwriteWarning (count_existing_files outputs w) ∈
          (print_drop_summary args inputs outputs w).1)) := by
  refine ⟨print_drop_summary_world args inputs outputs w, ?_, ?_⟩
  · intro hod n hmem
    cases hc : args.columns.head? with
    | none =>
      simp only [print_drop_summary, hc] at hmem
      rcases mem_drop_file_lines hmem with ⟨p, hp⟩ | hp <;> cases hp
    | some c =>
      simp only [print_drop_summary, hc, hod] at hmem
      rcases List.mem_append.mp hmem with h1 | h1
      · rcases List.mem_append.mp h1 with h2 | h2
        · rcases mem_drop_file_lines h2 with ⟨p, hp⟩ | hp <;> cases hp
        · simp only [List.mem_singleton] at h2
          cases h2
      · cases h1
  · intro hod hcols
    obtain ⟨d, hd⟩ := Option.isSome_iff_exists.mp hod
    cases hcol : args.columns with
    | nil => exact absurd hcol hcols
    | cons c cs =>
      have hh : args.columns.head? = some c := by rw [hcol]; rfl
      constructor
      · intro hcount
        simp only [print_drop_summary, hh, hd, if_pos hcount]
        simp
      · intro hmem
        by_contra hcount
        simp only [print_drop_summary, hh, hd, if_neg hcount, List.append_nil] at hmem
        rcases List.mem_append.mp hmem with h1 | h1
        · rcases mem_drop_file_lines h1 with ⟨p, hp⟩ | hp <;> cases hp
        · simp only [List.mem_singleton] at h1
          cases h1

/-- Counterexample to C4 as stated: an in-place invocation (no output
directory) whose outputs — the inputs themselves — all already exist, so
the claimed precheck count is positive, yet the command emits no
overwrite warning at all. -/
theorem drop_inplace_no_warning_counterexample :
    argsIP.output_dir = none ∧
    0 < count_existing_files [pA, pB] wAB ∧
    (drop_command argsIP [pA, pB] wAB (.ok true)).1 =
      [DLine.file pA, DLine.file pB, DLine.summary ["x"] 2, DLine.editStub] := by
  refine ⟨rfl, by decide, by decide⟩

/-- Witness for the amended C4: with an output directory set, the summary
step warns with the exact count of already-existing outputs, and the
filesystem is unchanged. -/
theorem print_drop_summary_precheck_witness :
    (print_drop_summary argsOD [pA, pB] [pA, pB] wAB).2.1 = wAB ∧
    DLine.overwriteWarning (count_existing_files [pA, pB] wAB) ∈
      (print_drop_summary argsOD [pA, pB] [pA, pB] wAB).1 := by
  have h := print_drop_summary_precheck argsOD [pA, pB] [pA, pB] wAB
  exact ⟨h.1, (h.2.2 (by decide) (by decide)).mp (by decide)⟩

theorem get_parquet_row_counts_error_of_mem {w : World} :
    ∀ {paths : List Path}, (∃ p ∈ paths, ∃ e, read_row_count w p = .error e) →
    ∃ e, get_parquet_row_counts paths w = .error e := by
  intro paths
  induction paths with
  | nil => intro h; simp at h
  | cons p ps ih =>
    intro h
    obtain ⟨q, hq, e, he⟩ := h
    cases hr : read_row_count w p with
    | error e2 =>
      refine ⟨e2, ?_⟩
      simp only [get_parquet_row_counts, hr]
    | ok n =>
      rcases List.mem_cons.mp hq with rfl | hq2
      · rw [hr] at he; cases he
      · obtain ⟨e3, he3⟩ := ih ⟨q, hq2, e, he⟩
        refine ⟨e3, ?_⟩
        simp only [get_parquet_row_counts, hr, he3]

theorem get_parquet_schemas_error_of_mem {w : World} :
    ∀ {paths : List Path}, (∃ p ∈ paths, ∃ e, read_schema w p = .error e) →
    ∃ e, get_parquet_schemas paths w = .error e := by
  intro paths
  induction paths with
  | nil => intro h; simp at h
  | cons p ps ih =>
    intro h
    obtain ⟨q, hq, e, he⟩ := h
    cases hr : read_schema w p with
    | error e2 =>
      refine ⟨e2, ?_⟩
      simp only [get_parquet_schemas, hr]
    | ok s =>
      rcases List.mem_cons.mp hq with rfl | hq2
      · rw [hr] at he; cases he
      · obtain ⟨e3, he3⟩ := ih ⟨q, hq2, e, he⟩
        refine ⟨e3, ?_⟩
        simp only [get_parquet_schemas, hr, he3]

/-- C5: one file's metadata-read failure fails the whole row-count or
schema batch; under a row-count failure, ls returns that error and never
prints a totals line; under a schema failure, drop returns that error
having printed nothing and changed nothing. -/
theorem metadata_error_aborts :
    (∀ (paths : List Path) (w : World),
      (∃ p ∈ paths, ∃ e, read_row_count w p = .error e) →
      ∃ e, get_parquet_row_counts paths w = .error e) ∧
    (∀ (paths : List Path) (w : World),
      (∃ p ∈ paths, ∃ e, read_schema w p = .error e) →
      ∃ e, get_parquet_schemas paths w = .error e) ∧
    (∀ (paths : List Path) (w : World) (n th : Option Nat) (t : Nat) (e : TblError),
      total_file_size paths w = .ok t →
      get_parquet_row_counts paths w = .error e →
      (ls_command paths w n th).2 = .error e ∧
      ∀ r b f, LLine.summary r b f ∉ (ls_command paths w n th).1) ∧
    (∀ (args : DropArgs) (enum : List Path) (w : World) (pa : Except Unit Bool)
      (inputs outputs : List Path) (e : TblError),
      get_output_paths (spec_of args) enum = .ok (inputs, outputs) →
      get_parquet_schemas inputs w = .error e →
      drop_command args enum w pa = ([], w, .error e)) := by
  refine ⟨fun paths w => get_parquet_row_counts_error_of_mem,
    fun paths w => get_parquet_schemas_error_of_mem, ?_, ?_⟩
  · intro paths w n th t e ht hrc
    constructor
    · simp only [ls_command, ht, hrc]
    · intro r b f hmem
      simp only [ls_command, ht, hrc] at hmem
      split at hmem
      · rcases List.mem_append.mp hmem with h1 | h1
        · obtain ⟨p, _, hp⟩ := List.mem_map.mp h1
          cases hp
        · simp only [List.mem_singleton] at h1
          cases h1
      · obtain ⟨p, _, hp⟩ := List.mem_map.mp hmem
        cases hp
  · intro args enum w pa inputs outputs e h1 h2
    simp only [drop_command, h1, h2]

/-- Witness for C5: with pA's footer unreadable, ls fails naming pA and
prints no totals line. -/
theorem metadata_error_aborts_witness :
    (ls_command [pA, pB] wBad none none).2 = .error (.UnreadableMetadata pA) ∧
    LLine.summary 4 30 2 ∉ (ls_command [pA, pB] wBad none none).1 := by
  have h := metadata_error_aborts.2.2.1 [pA, pB] wBad none none 30
    (.UnreadableMetadata pA) (by rfl) (by rfl)
  exact ⟨h.1, h.2 4 30 2⟩

/-- C8: drop_command is write-free — for every combination of arguments,
enumerated file set, filesystem and prompt outcome, the resulting
filesystem is exactly the initial one: no tabular file is created,
modified or deleted, the edit step being a stub that only prints. -/
theorem drop_command_frame (args : DropArgs) (enum : List Path) (w : World)
    (pa : Except Unit Bool) :
    (drop_command args enum w pa).2.1 = w := by
  cases h1 : get_output_paths (spec_of args) enum with
  | error e => simp [drop_command, h1]
  | ok pr =>
    obtain ⟨inputs, outputs⟩ := pr
    cases h2 : get_parquet_schemas inputs w with
    | error e => simp [drop_command, h1, h2]
    | ok schemas =>
      cases h3 : check_columns (inputs.zip schemas) args.columns with
      | error e => simp [drop_command, h1, h2, h3]
      | ok u =>
        cases u
        have hw := print_drop_summary_world args inputs outputs w
        cases h4 : print_drop_summary args inputs outputs w with
        | mk lines rest =>
          obtain ⟨w2, res⟩ := rest
          rw [h4] at hw
          simp only at hw
          cases res with
          | error e => simp [drop_command, h1, h2, h3, h4, hw]
          | ok u2 =>
            cases u2
            by_cases hcf : args.confirm
            · simp [drop_command, h1, h2, h3, h4, hcf, hw]
            · cases pa with
              | error u3 => simp [drop_command, h1, h2, h3, h4, hcf, hw]
              | ok bv =>
                cases bv with
                | true => simp [drop_command, h1, h2, h3, h4, hcf, hw]
                | false => simp [drop_command, h1, h2, h3, h4, hcf, hw]

/-- C9: without the confirm flag, a non-affirmative prompt outcome
(negative answer or prompt failure) means the edit stub is never reached,
and whenever the prompt was actually shown the command nonetheless
returns Ok with the prompt as its last action. -/
theorem drop_prompt_gate (args : DropArgs) (enum : List Path) (w : World)
    (pa : Except Unit Bool) (hcf : args.confirm = false) (hpa : pa ≠ .ok true) :
    DLine.editStub ∉ (drop_command args enum w pa).1 ∧
    (DLine.promptShown ∈ (drop_command args enum w pa).1 →
      (drop_command args enum w pa).2.2 = .ok () ∧
      (drop_command args enum w pa).1.getLast? = some DLine.promptShown) := by
  cases h1 : get_output_paths (spec_of args) enum with
  | error e => simp [drop_command, h1]
  | ok pr =>
    obtain ⟨inputs, outputs⟩ := pr
    cases h2 : get_parquet_schemas inputs w with
    | error e => simp [drop_command, h1, h2]
    | ok schemas =>
      cases h3 : check_columns (inputs.zip schemas) args.columns with
      | error e => simp [drop_command, h1, h2, h3]
      | ok u =>
        cases u
        cases h4 : print_drop_summary args inputs outputs w with
        | mk lines rest =>
          obtain ⟨w2, res⟩ := rest
          have hlines : ∀ x ∈ lines, x ∈ (print_drop_summary args inputs outputs w).1 := by
            rw [h4]
            intro x hx
            exact hx
          cases res with
          | error e =>
            simp only [drop_command, h1, h2, h3, h4]
            constructor
            · intro hmem
              rcases mem_print_drop_summary_lines (hlines _ hmem) with
                ⟨p, hp⟩ | hp | ⟨cols, k, hp⟩ | ⟨m, hp⟩ <;> cases hp
            · intro hmem
              rcases mem_print_drop_summary_lines (hlines _ hmem) with
                ⟨p, hp⟩ | hp | ⟨cols, k, hp⟩ | ⟨m, hp⟩ <;> cases hp
          | ok u2 =>
            cases u2
            have hred : drop_command args enum w pa = (lines ++ [DLine.promptShown], w2, .ok ()) := by
              simp only [drop_command, h1, h2, h3, h4, hcf]
              cases pa with
              | error u3 => rfl
              | ok bv =>
                cases bv with
                | true => exact absurd rfl hpa
                | false => rfl
            rw [hred]
            constructor
            · intro hmem
              rcases List.mem_append.mp hmem with hm | hm
              · rcases mem_print_drop_summary_lines (hlines _ hm) with
                  ⟨p, hp⟩ | hp | ⟨cols, k, hp⟩ | ⟨m, hp⟩ <;> cases hp
              · simp only [List.mem_singleton] at hm
                cases hm
            · intro _
              exact ⟨rfl, List.getLast?_concat _⟩

/-- Witness for C9: a negative prompt answer leaves the edit stub
unprinted and ends the run successfully. -/
theorem drop_prompt_gate_witness :
    DLine.editStub ∉ (drop_command argsX [pA, pB] wAB (.ok false)).1 ∧
    (drop_command argsX [pA, pB] wAB (.ok false)).2.2 = .ok () := by
  have h := drop_prompt_gate argsX [pA, pB] wAB (.ok false) rfl (by simp)
  exact ⟨h.1, (h.2 (by decide)).1⟩

theorem check_columns_nil : ∀ pairs : List (Path × List String),
    check_columns pairs [] = .ok ()
  | [] => rfl
  | pr :: rest => by
    simp only [check_columns, check_columns_file]
    exact check_columns_nil rest

/-- C10: with an empty column list the per-file column check passes
vacuously, and — provided derivation and the schema reads succeed — the
command fails with the Arg error naming the missing column argument,
raised from the summary step: the file listing has already been printed,
but no summary line, prompt or edit stub is ever emitted, and the
filesystem is unchanged. -/
theorem drop_empty_columns (args : DropArgs) (enum : List Path) (w : World)
    (pa : Except Unit Bool) (inputs outputs : List Path) (schemas : List (List String))
    (hcols : args.columns = [])
    (h1 : get_output_paths (spec_of args) enum = .ok (inputs, outputs))
    (h2 : get_parquet_schemas inputs w = .ok schemas) :
    check_columns (inputs.zip schemas) args.columns = .ok () ∧
    drop_command args enum w pa =
      (drop_file_lines inputs, w, .error (.Arg ("must specify column(s) to drop"))) ∧
    DLine.promptShown ∉ (drop_command args enum w pa).1 ∧
    DLine.editStub ∉ (drop_command args enum w pa).1 := by
  have hcheck : check_columns (inputs.zip schemas) args.columns = .ok () := by
    rw [hcols]
    exact check_columns_nil _
  have hrun : drop_command args enum w pa =
      (drop_file_lines inputs, w, .error (.Arg ("must specify column(s) to drop"))) := by
    have hh : args.columns.head? = none := by rw [hcols]; rfl
    simp only [drop_command, h1, h2, hcheck, print_drop_summary, hh]
  refine ⟨hcheck, hrun, ?_, ?_⟩
  · rw [hrun]
    intro hmem
    rcases mem_drop_file_lines hmem with ⟨p, hp⟩ | hp <;> cases hp
  · rw [hrun]
    intro hmem
    rcases mem_drop_file_lines hmem with ⟨p, hp⟩ | hp <;> cases hp

/-- Witness for C10: dropping an empty column list over two readable
files prints the file listing and fails with the argument error. -/
theorem drop_empty_columns_witness :
    drop_command argsE [pA, pB] wAB (.ok true) =
      (drop_file_lines [pA, pB], wAB, .error (.Arg ("must specify column(s) to drop"))) := by
  exact (drop_empty_columns argsE [pA, pB] wAB (.ok true) [pA, pB] [pA, pB]
    [["x", "y"], ["x"]] rfl (by rfl) (by rfl)).2.1

/-- C6: the filename-affix policy yields an output whose stem is
prefix ++ original stem ++ postfix with the extension unchanged, whose
directory is unchanged when no directory-redirect is active, and which
under directory-redirect is placed under the output root at the input's
path relative to the common ancestor — the affix applying to the
already-redirected path. -/
theorem derive_output_affix (od : Option (List String)) (anc : List String)
    (pre post : Option String) (p : Path) :
    (derive_output od anc pre post p).stem = pre.getD ("") ++ p.stem ++ post.getD ("") ∧
    (derive_output od anc pre post p).ext = p.ext ∧
    (od = none → (derive_output od anc pre post p).dir = p.dir) ∧
    (∀ root, od = some root →
      (derive_output od anc pre post p).dir = root ++ p.dir.drop anc.length) := by
  refine ⟨rfl, rfl, ?_, ?_⟩
  · intro h
    subst h
    rfl
  · intro root h
    subst h
    rfl

/-- Witness for C6: prefix p_ and postfix _q on stem file yield stem
p_file_q with extension and directory unchanged. -/
theorem derive_output_affix_witness :
    (derive_output none [] (some ("p_")) (some ("_q")) pFile).stem = "p_file_q" ∧
    (derive_output none [] (some ("p_")) (some ("_q")) pFile).ext = "ext" ∧
    (derive_output none [] (some ("p_")) (some ("_q")) pFile).dir = ["d"] := by
  have h := derive_output_affix none [] (some ("p_")) (some ("_q")) pFile
  refine ⟨?_, h.2.1, h.2.2.1 rfl⟩
  rw [h.1]
  decide

/-- C7: the schema subcommand's sort argument defaults to bytes when not
given; the selectable keys are total bytes, total rows and file count;
and sorting arranges the schema groups in descending order of the
selected key (a permutation of the groups). -/
theorem schema_sort_spec :
    parse_schema_sort none = "bytes" ∧
    schema_sort_default = "bytes" ∧
    (∀ g, schema_group_key ("bytes") g = g.n_bytes) ∧
    (∀ g, schema_group_key ("rows") g = g.n_rows) ∧
    (∀ g, schema_group_key ("files") g = g.n_files) ∧
    (∀ sort gs, List.Sorted
      (fun a b => schema_group_key sort b ≤ schema_group_key sort a)
      (sort_schema_groups sort gs)) ∧
    (∀ sort gs, (sort_schema_groups sort gs).Perm gs) := by
  refine ⟨rfl, rfl, fun g => rfl, fun g => rfl, fun g => rfl, ?_, ?_⟩
  · intro sort gs
    haveI : IsTotal SchemaGroup
        (fun a b => schema_group_key sort b ≤ schema_group_key sort a) :=
      ⟨fun a b => le_total (schema_group_key sort b) (schema_group_key sort a)⟩
    haveI : IsTrans SchemaGroup
        (fun a b => schema_group_key sort b ≤ schema_group_key sort a) :=
      ⟨fun a b c hab hbc => le_trans hbc hab⟩
    exact List.sorted_insertionSort _ gs
  · intro sort gs
    exact List.perm_insertionSort _ gs

end Tbl
